import Mathlib

/-!
Verification of the libVeles workflow loader
(`src/libVeles/inc/veles/workflow_loader.h`).

The repository ships the loader's interface header; the spec describes the
deserialization pipeline behind it: archive extraction into a scratch
directory, parsing of a hierarchical text description into
`WorkflowDescription` / `UnitDescription`, resolution of link-tagged
properties into float arrays read from extracted binary files, and
guaranteed cleanup of the scratch directory with a four-valued status code.

Data shapes (`PropertiesTable`, `UnitDescription`, `WorkflowDescription`,
`WorkflowExtractionError`), the class state and the accessor
`GetWorkflowDescription` are embedded from the header.  The bodies of
`Load`, `CreateWorkflow`, `GetUnit`, `GetProperties`, `GetArrayFromFile`
and `RemoveDirectory` are not in the repository sources, so they are
modelled from the spec, as marked on each definition.
-/

namespace Veles

/-- A raw byte of an extracted file.  Only positional identity of bytes
matters to the loader, so bytes are modelled as natural numbers. -/
abbrev Byte := Nat

/-- One IEEE-754 single-precision float element of a binary payload,
represented by its four raw bytes in file order.  The loader performs no
endianness conversion, so the bit pattern of an element is exactly its four
source bytes. -/
abbrev Float32Bits := List Byte

/-- A typed property value.  Modelled from the spec: the header stores
type-erased `shared_ptr<void>` values in `PropertiesTable`; the spec records
that the only value shapes this pipeline produces are a UTF-8 string and a
float array with an explicit element count. -/
inductive PropertyValue where
  | str (s : String)
  | floatArr (arr : List Float32Bits) (count : Nat)
  deriving DecidableEq, Repr

/-- `PropertiesTable` from workflow_loader.h line 44: a map from property
name to value, embedded as an association list (one entry per raw key). -/
abbrev PropertiesTable := List (String × PropertyValue)

/-- `UnitDescription` from workflow_loader.h lines 48-53. -/
structure UnitDescription where
  Name : String
  Properties : PropertiesTable
  deriving DecidableEq, Repr

/-- `WorkflowDescription` from workflow_loader.h lines 57-63: workflow-level
properties plus the ordered vector of units. -/
structure WorkflowDescription where
  Properties : PropertiesTable
  Units : List UnitDescription
  deriving DecidableEq, Repr

/-- `enum WorkflowExtractionError` from workflow_loader.h lines 68-77. -/
inductive WorkflowExtractionError where
  | kAllGood
  | kArchiveExtractionError
  | kWorkflowFromFileExtractionError
  | kDeletingTempDirectoryError
  deriving DecidableEq, Repr

/-- The contents of the scratch directory after extraction: relative file
name paired with the file's bytes. -/
abbrev ScratchFiles := List (String × List Byte)

/-- A node of the hierarchical text description (the YAML tree handed to
`CreateWorkflow`): scalar, sequence, or map. -/
inductive YamlNode where
  | scalar (s : String)
  | seq (elems : List YamlNode)
  | map (entries : List (String × YamlNode))

/-- The reserved link tag on property keys ("link_to_", from the `Load`
documentation in workflow_loader.h lines 97-98). -/
def kLinkTag : String := "link_to_"

/-- Whether a property key begins with the reserved link tag, computed on
the character-list representation of strings. -/
def hasLinkTag (key : String) : Bool :=
  kLinkTag.data.isPrefixOf key.data

/-- The logical property name of a link-tagged key: the key with the
reserved link tag removed. -/
def stripLinkTag (key : String) : String :=
  ⟨key.data.drop kLinkTag.data.length⟩

/-- Group the bytes of a binary payload into consecutive four-byte float
elements, in file order; fails when the byte length is not a whole multiple
of four. -/
def groupFloats : List Byte → Option (List Float32Bits)
  | [] => some []
  | b0 :: b1 :: b2 :: b3 :: rest =>
      (groupFloats rest).map (fun gs => [b0, b1, b2, b3] :: gs)
  | _ => none

/-- Modelled from the spec: `GetArrayFromFile` (declared at
workflow_loader.h lines 183-184; its implementation file is absent).  Reads
the file's bytes, verifies the size is a whole multiple of the float
element width (4), reinterprets the bytes as floats in native byte order
with no endianness conversion, and reports the element count as byte length
divided by the element width. -/
def GetArrayFromFile (bytes : List Byte) : Option (List Float32Bits × Nat) :=
  (groupFloats bytes).map (fun gs => (gs, bytes.length / 4))

/-- Modelled from the spec: the Property Resolver (spec 4.3, realized by
`GetProperties` declared at workflow_loader.h line 182; its implementation
file is absent).  A key beginning with the reserved link tag names a file
under the scratch directory whose bytes are decoded by `GetArrayFromFile`
into a float-array property, the stored key being the logical name with the
tag removed; any other key stores its scalar value verbatim as a string
property.  A missing or undecodable link file, or a non-scalar value, is a
resolution failure. -/
def ResolveProperty (files : ScratchFiles) (key : String) (node : YamlNode) :
    Option (String × PropertyValue) :=
  if hasLinkTag key then
    match node with
    | .scalar fname =>
      match files.lookup fname with
      | some bytes =>
        (GetArrayFromFile bytes).map
          (fun p => (stripLinkTag key, PropertyValue.floatArr p.1 p.2))
      | none => none
    | _ => none
  else
    match node with
    | .scalar s => some (key, PropertyValue.str s)
    | _ => none

/-- Modelled from the spec: building a property table by resolving every
key/value entry of a map node in order; the first resolution failure aborts
the table. -/
def ResolveTable (files : ScratchFiles) :
    List (String × YamlNode) → Option PropertiesTable
  | [] => some []
  | (k, v) :: rest =>
    match ResolveProperty files k v with
    | none => none
    | some p =>
      match ResolveTable files rest with
      | none => none
      | some t => some (p :: t)

/-- Modelled from the spec: `GetUnit` (declared at workflow_loader.h line
181; its implementation file is absent).  A unit node must be a map with a
`name` scalar; the remaining keys become the unit's properties through the
Property Resolver. -/
def GetUnit (files : ScratchFiles) (doc : YamlNode) : Option UnitDescription :=
  match doc with
  | .map entries =>
    match entries.lookup "name" with
    | some (.scalar nm) =>
      match ResolveTable files (entries.filter (fun kv => kv.1 != "name")) with
      | none => none
      | some t => some ⟨nm, t⟩
    | _ => none
  | _ => none

/-- Modelled from the spec: resolving the elements of the `units` sequence
in order; the first failing unit aborts the rest. -/
def GetUnits (files : ScratchFiles) : List YamlNode → Option (List UnitDescription)
  | [] => some []
  | d :: ds =>
    match GetUnit files d with
    | none => none
    | some u =>
      match GetUnits files ds with
      | none => none
      | some us => some (u :: us)

/-- Modelled from the spec: `CreateWorkflow` (declared at workflow_loader.h
line 171; its implementation file is absent).  The root must be a map whose
reserved `units` key holds a sequence; its elements become the units in
sequence order, and every other top-level key becomes a workflow-level
property. -/
def CreateWorkflow (files : ScratchFiles) (doc : YamlNode) :
    Option WorkflowDescription :=
  match doc with
  | .map entries =>
    match entries.lookup "units" with
    | some (.seq ds) =>
      match GetUnits files ds with
      | none => none
      | some us =>
        match ResolveTable files (entries.filter (fun kv => kv.1 != "units")) with
        | none => none
        | some props => some ⟨props, us⟩
    | _ => none
  | _ => none

/-- The environment of one `Load` call: the outcome of each external
collaborator.  `extracted` is the scratch-directory content produced by
archive extraction (`none` when the archive is unreadable or an entry fails
to extract); `parsed` is the YAML tree obtained from the extracted
description file (`none` when that file is missing or malformed);
`removeSucceeds` tells whether `RemoveDirectory` succeeds on the scratch
directory. -/
structure LoadEnv where
  extracted : Option ScratchFiles
  parsed : Option YamlNode
  removeSucceeds : Bool

/-- The observable outcome of one `Load` call: the final status, the
description built (present exactly when all stages succeeded), and whether
the scratch directory still exists after the call returns. -/
structure LoadResult where
  status : WorkflowExtractionError
  desc : Option WorkflowDescription
  scratchExists : Bool
  deriving Repr

/-- Modelled from the spec: the final status after the `Cleaning` stage.  A
failed removal turns the status into `kDeletingTempDirectoryError` only
when the prior status was `kAllGood`; an earlier failure is never masked. -/
def finishStatus (prior : WorkflowExtractionError) (removeOk : Bool) :
    WorkflowExtractionError :=
  if removeOk then prior
  else
    match prior with
    | .kAllGood => .kDeletingTempDirectoryError
    | s => s

/-- Modelled from the spec: the `Cleaning → Done` transition, reached on
every exit path.  Removal of the scratch directory is attempted
unconditionally; the directory remains only if that removal fails. -/
def cleaning (prior : WorkflowExtractionError) (desc : Option WorkflowDescription)
    (env : LoadEnv) : LoadResult :=
  ⟨finishStatus prior env.removeSucceeds, desc, !env.removeSucceeds⟩

/-- Modelled from the spec: the top-level `Load` state machine (spec 4.5;
`Load` is declared at workflow_loader.h line 102 but its implementation
file is absent).  Extraction failure goes to cleaning with
`kArchiveExtractionError`; a missing or malformed description, or any
resolution failure inside `CreateWorkflow`, goes to cleaning with
`kWorkflowFromFileExtractionError`; full success goes to cleaning with
`kAllGood`.  Every path ends in the cleaning transition. -/
def Load (env : LoadEnv) : LoadResult :=
  match env.extracted with
  | none => cleaning .kArchiveExtractionError none env
  | some files =>
    match env.parsed with
    | none => cleaning .kWorkflowFromFileExtractionError none env
    | some doc =>
      match CreateWorkflow files doc with
      | none => cleaning .kWorkflowFromFileExtractionError none env
      | some wd => cleaning .kAllGood (some wd) env

/-- The status determined by the pipeline stages alone, before the cleaning
transition runs. -/
def stageStatus (env : LoadEnv) : WorkflowExtractionError :=
  match env.extracted with
  | none => .kArchiveExtractionError
  | some files =>
    match env.parsed with
    | none => .kWorkflowFromFileExtractionError
    | some doc =>
      match CreateWorkflow files doc with
      | none => .kWorkflowFromFileExtractionError
      | some _ => .kAllGood

/-- The executable workflow object (`veles/workflow.h`, a collaborator
outside the verified sources); its internal structure is irrelevant to the
claims about the loader, so it is represented abstractly. -/
structure Workflow where
  handle : Nat

/-- The state of a `WorkflowLoader` object: the four data members of the
class, from workflow_loader.h lines 201-205. -/
structure WorkflowLoader where
  workflow_desc_ : WorkflowDescription
  workflow_ : Workflow
  archive_name_ : String
  file_with_workflow_ : String

/-- `GetWorkflowDescription` from workflow_loader.h line 129:
`WorkflowDescription GetWorkflowDescription() const { return workflow_desc_; }`.
A const member function is embedded state-passing style: it yields the
returned value together with the object state as it is when the call
returns. -/
def GetWorkflowDescription (s : WorkflowLoader) :
    WorkflowDescription × WorkflowLoader :=
  (s.workflow_desc_, s)

theorem groupFloats_of_misaligned (bytes : List Byte) (h : bytes.length % 4 ≠ 0) :
    groupFloats bytes = none := by
  induction bytes using groupFloats.induct with
  | case1 => simp at h
  | case2 b0 b1 b2 b3 rest ih =>
    simp only [List.length_cons] at h
    rw [groupFloats, ih (by omega)]
    rfl
  | case3 bytes h1 h2 =>
    rcases bytes with _ | ⟨a, _ | ⟨b, _ | ⟨c, _ | ⟨d, rest⟩⟩⟩⟩
    · exact absurd rfl h1
    · rfl
    · rfl
    · rfl
    · exact absurd rfl (h2 a b c d rest)

theorem groupFloats_of_aligned (E : Nat) :
    ∀ bytes : List Byte, bytes.length = 4 * E →
      ∃ gs, groupFloats bytes = some gs ∧ gs.length = E ∧
        gs.flatten = bytes ∧ ∀ g ∈ gs, g.length = 4 := by
  induction E with
  | zero =>
    intro bytes h
    have hb : bytes = [] := List.length_eq_zero.mp (by omega)
    exact ⟨[], by simp [hb, groupFloats]⟩
  | succ E ih =>
    intro bytes h
    rcases bytes with _ | ⟨b0, _ | ⟨b1, _ | ⟨b2, _ | ⟨b3, rest⟩⟩⟩⟩ <;>
      simp only [List.length_cons, List.length_nil] at h
    · omega
    · omega
    · omega
    · omega
    · obtain ⟨gs, hg, hlen, hjoin, hfour⟩ := ih rest (by omega)
      refine ⟨[b0, b1, b2, b3] :: gs, ?_, ?_, ?_, ?_⟩
      · rw [groupFloats, hg]; rfl
      · simp [hlen]
      · simp [hjoin]
      · intro g hgmem
        rcases List.mem_cons.mp hgmem with hgeq | hgtl
        · simp [hgeq]
        · exact hfour g hgtl

theorem Load_scratchExists (env : LoadEnv) :
    (Load env).scratchExists = !env.removeSucceeds := by
  rcases env with ⟨ext, par, rs⟩
  cases ext with
  | none => rfl
  | some files =>
    cases par with
    | none => rfl
    | some doc =>
      cases hcw : CreateWorkflow files doc <;> simp [Load, cleaning, hcw]

theorem Load_status_eq (env : LoadEnv) :
    (Load env).status = finishStatus (stageStatus env) env.removeSucceeds := by
  rcases env with ⟨ext, par, rs⟩
  cases ext with
  | none => rfl
  | some files =>
    cases par with
    | none => rfl
    | some doc =>
      cases hcw : CreateWorkflow files doc <;>
        simp [Load, stageStatus, cleaning, hcw]

theorem finishStatus_kAllGood_iff (prior : WorkflowExtractionError) (rs : Bool) :
    finishStatus prior rs = .kAllGood ↔ (prior = .kAllGood ∧ rs = true) := by
  cases rs <;> cases prior <;> decide

theorem getUnits_forall2 (files : ScratchFiles) :
    ∀ (ds : List YamlNode) (us : List UnitDescription),
      GetUnits files ds = some us →
      List.Forall₂ (fun d u => GetUnit files d = some u) ds us := by
  intro ds
  induction ds with
  | nil =>
    intro us h
    unfold GetUnits at h
    cases h
    exact List.Forall₂.nil
  | cons d ds ih =>
    intro us h
    unfold GetUnits at h
    cases hu : GetUnit files d with
    | none => rw [hu] at h; cases h
    | some u =>
      rw [hu] at h
      cases hus : GetUnits files ds with
      | none => rw [hus] at h; cases h
      | some us2 =>
        rw [hus] at h
        cases h
        exact List.Forall₂.cons hu (ih us2 hus)

theorem stageStatus_ne_deleting (env : LoadEnv) :
    stageStatus env ≠ .kDeletingTempDirectoryError := by
  rcases env with ⟨ext, par, rs⟩
  cases ext with
  | none => simp [stageStatus]
  | some files =>
    cases par with
    | none => simp [stageStatus]
    | some doc =>
      cases hcw : CreateWorkflow files doc <;> simp [stageStatus, hcw]

theorem resolveProperty_shape (files : ScratchFiles) (key : String)
    (node : YamlNode) (p : String × PropertyValue)
    (h : ResolveProperty files key node = some p) :
    if hasLinkTag key then (∃ a n, p.2 = PropertyValue.floatArr a n)
    else (∃ s, p.2 = PropertyValue.str s) := by
  cases hk : hasLinkTag key with
  | false =>
    cases node with
    | scalar s =>
      simp only [ResolveProperty, hk, Bool.false_eq_true, if_false,
        Option.some.injEq] at h
      simp only [Bool.false_eq_true, if_false]
      exact ⟨s, by rw [← h]⟩
    | seq elems => simp [ResolveProperty, hk] at h
    | map entries => simp [ResolveProperty, hk] at h
  | true =>
    cases node with
    | scalar fname =>
      cases hl : files.lookup fname with
      | none => simp [ResolveProperty, hk, hl] at h
      | some bytes =>
        cases hga : GetArrayFromFile bytes with
        | none => simp [ResolveProperty, hk, hl, hga] at h
        | some pr =>
          simp only [ResolveProperty, hk, if_true, hl, hga, Option.map_some',
            Option.some.injEq] at h
          simp only [if_true]
          exact ⟨pr.1, pr.2, by rw [← h]⟩
    | seq elems => simp [ResolveProperty, hk] at h
    | map entries => simp [ResolveProperty, hk] at h

/-- Claim C1: on every exit path of `Load` — success or failure at the
extraction, parsing, or property-resolution stage — the scratch directory
is removed before the call returns (whenever the removal operation itself
works), so the loader's temporary filesystem state never outlives the
call. -/
theorem load_removes_scratch_on_every_path (env : LoadEnv)
    (h : env.removeSucceeds = true) :
    (Load env).scratchExists = false := by
  rw [Load_scratchExists, h]
  rfl

theorem load_removes_scratch_on_every_path_witness :
    (Load ⟨some [], some (.map [("units", .seq [])]), true⟩).scratchExists = false :=
  load_removes_scratch_on_every_path
    ⟨some [], some (.map [("units", .seq [])]), true⟩ rfl

/-- Claim C2: when removal of the scratch directory fails at the end of a
`Load` call, the final status is `kDeletingTempDirectoryError` exactly when
the status before cleanup was `kAllGood`; a stage failure that already
occurred is reported unchanged and is never replaced by the cleanup
failure. -/
theorem cleanup_failure_never_masks (env : LoadEnv)
    (h : env.removeSucceeds = false) :
    ((Load env).status = .kDeletingTempDirectoryError ↔
      stageStatus env = .kAllGood) ∧
    (stageStatus env ≠ .kAllGood → (Load env).status = stageStatus env) := by
  rw [Load_status_eq, h]
  cases hs : stageStatus env with
  | kAllGood => simp [finishStatus]
  | kArchiveExtractionError => simp [finishStatus]
  | kWorkflowFromFileExtractionError => simp [finishStatus]
  | kDeletingTempDirectoryError => exact absurd hs (stageStatus_ne_deleting env)

theorem cleanup_failure_never_masks_witness :
    ((Load ⟨none, none, false⟩).status = .kDeletingTempDirectoryError ↔
      stageStatus ⟨none, none, false⟩ = .kAllGood) ∧
    (stageStatus ⟨none, none, false⟩ ≠ .kAllGood →
      (Load ⟨none, none, false⟩).status = stageStatus ⟨none, none, false⟩) :=
  cleanup_failure_never_masks ⟨none, none, false⟩ rfl

/-- Claim C3: a successfully built `WorkflowDescription` carries the units
in exactly the order of the `units` sequence of the source description:
the i-th element of `Units` is exactly the unit extracted from the i-th
node of that sequence. -/
theorem createWorkflow_preserves_unit_order (files : ScratchFiles)
    (entries : List (String × YamlNode)) (ds : List YamlNode)
    (wd : WorkflowDescription)
    (h : CreateWorkflow files (.map entries) = some wd)
    (hu : entries.lookup "units" = some (.seq ds)) :
    List.Forall₂ (fun d u => GetUnit files d = some u) ds wd.Units := by
  simp only [CreateWorkflow, hu] at h
  cases hus : GetUnits files ds with
  | none => simp [hus] at h
  | some us =>
    cases hpt : ResolveTable files (entries.filter (fun kv => kv.1 != "units")) with
    | none => simp [hus, hpt] at h
    | some props =>
      simp only [hus, hpt, Option.some.injEq] at h
      rw [← h]
      exact getUnits_forall2 files ds us hus

theorem createWorkflow_preserves_unit_order_witness :
    (⟨[], [⟨"B", []⟩, ⟨"A", []⟩, ⟨"C", []⟩]⟩ :
        WorkflowDescription).Units.map UnitDescription.Name = ["B", "A", "C"] ∧
    List.Forall₂ (fun d u => GetUnit [] d = some u)
      [YamlNode.map [("name", .scalar "B")], YamlNode.map [("name", .scalar "A")],
        YamlNode.map [("name", .scalar "C")]]
      (⟨[], [⟨"B", []⟩, ⟨"A", []⟩, ⟨"C", []⟩]⟩ : WorkflowDescription).Units :=
  ⟨by decide,
    createWorkflow_preserves_unit_order []
      [("units", .seq [YamlNode.map [("name", .scalar "B")],
        YamlNode.map [("name", .scalar "A")],
        YamlNode.map [("name", .scalar "C")]])]
      [YamlNode.map [("name", .scalar "B")], YamlNode.map [("name", .scalar "A")],
        YamlNode.map [("name", .scalar "C")]]
      ⟨[], [⟨"B", []⟩, ⟨"A", []⟩, ⟨"C", []⟩]⟩ (by decide) rfl⟩

/-- Claim C4: for a link file of `4*E` bytes, `GetArrayFromFile` yields a
float array of exactly `E` elements whose bytes — each element being its
four source bytes in file order, with no endianness conversion — flatten
back to exactly the file's bytes, and the reported element count is the
byte length divided by four. -/
theorem getArrayFromFile_bit_identical (bytes : List Byte) (E : Nat)
    (h : bytes.length = 4 * E) :
    ∃ gs, GetArrayFromFile bytes = some (gs, E) ∧ gs.length = E ∧
      gs.flatten = bytes ∧ (∀ g ∈ gs, g.length = 4) ∧
      bytes.length / 4 = E := by
  obtain ⟨gs, hg, hlen, hjoin, hfour⟩ := groupFloats_of_aligned E bytes h
  have hdiv : bytes.length / 4 = E := by omega
  refine ⟨gs, ?_, hlen, hjoin, hfour, hdiv⟩
  unfold GetArrayFromFile
  rw [hg, hdiv]
  rfl

theorem getArrayFromFile_bit_identical_witness :
    ∃ gs, GetArrayFromFile [7, 8, 9, 10, 11, 12, 13, 14] = some (gs, 2) ∧
      gs.length = 2 ∧ gs.flatten = [7, 8, 9, 10, 11, 12, 13, 14] ∧
      (∀ g ∈ gs, g.length = 4) ∧
      ([7, 8, 9, 10, 11, 12, 13, 14] : List Byte).length / 4 = 2 :=
  getArrayFromFile_bit_identical [7, 8, 9, 10, 11, 12, 13, 14] 2 (by decide)

/-- Claim C5: every `Load` call ends with a status that is exactly one of
the four enum values `kAllGood`, `kArchiveExtractionError`,
`kWorkflowFromFileExtractionError`, `kDeletingTempDirectoryError`, and a
final status of `kAllGood` guarantees that a workflow description was
actually built (so the description is valid only in that case). -/
theorem load_status_exhaustive_and_valid (env : LoadEnv) :
    ((Load env).status = .kAllGood ∨
      (Load env).status = .kArchiveExtractionError ∨
      (Load env).status = .kWorkflowFromFileExtractionError ∨
      (Load env).status = .kDeletingTempDirectoryError) ∧
    ((Load env).status = .kAllGood → (Load env).desc.isSome = true) := by
  constructor
  · cases hs : (Load env).status
    · exact Or.inl rfl
    · exact Or.inr (Or.inl rfl)
    · exact Or.inr (Or.inr (Or.inl rfl))
    · exact Or.inr (Or.inr (Or.inr rfl))
  · intro hg
    have h1 := (finishStatus_kAllGood_iff (stageStatus env) env.removeSucceeds).mp
      (by rw [← Load_status_eq]; exact hg)
    rcases env with ⟨ext, par, rs⟩
    cases ext with
    | none => simp [stageStatus] at h1
    | some files =>
      cases par with
      | none => simp [stageStatus] at h1
      | some doc =>
        cases hcw : CreateWorkflow files doc with
        | none => simp [stageStatus, hcw] at h1
        | some wd => simp [Load, hcw, cleaning]

theorem load_status_exhaustive_and_valid_witness :
    ((Load ⟨some [], some (.map [("units", .seq [])]), true⟩).status = .kAllGood ∨
      (Load ⟨some [], some (.map [("units", .seq [])]), true⟩).status =
        .kArchiveExtractionError ∨
      (Load ⟨some [], some (.map [("units", .seq [])]), true⟩).status =
        .kWorkflowFromFileExtractionError ∨
      (Load ⟨some [], some (.map [("units", .seq [])]), true⟩).status =
        .kDeletingTempDirectoryError) ∧
    ((Load ⟨some [], some (.map [("units", .seq [])]), true⟩).status = .kAllGood →
      (Load ⟨some [], some (.map [("units", .seq [])]), true⟩).desc.isSome = true) :=
  load_status_exhaustive_and_valid ⟨some [], some (.map [("units", .seq [])]), true⟩

/-- Claim C6: a link file whose byte length is not a whole multiple of four
makes `GetArrayFromFile` fail — no truncated or padded float array is
produced — and a load whose description references such a file through a
link-tagged property fails with `kWorkflowFromFileExtractionError`, the
scratch directory still being removed afterward. -/
theorem misaligned_link_file_fails_load (bytes : List Byte)
    (key fname unm : String) (h4 : bytes.length % 4 ≠ 0)
    (hk : hasLinkTag key = true) :
    GetArrayFromFile bytes = none ∧
    (Load ⟨some [(fname, bytes)],
        some (.map [("units",
          .seq [.map [("name", .scalar unm), (key, .scalar fname)]])]),
        true⟩).status = .kWorkflowFromFileExtractionError ∧
    (Load ⟨some [(fname, bytes)],
        some (.map [("units",
          .seq [.map [("name", .scalar unm), (key, .scalar fname)]])]),
        true⟩).scratchExists = false := by
  have hga : GetArrayFromFile bytes = none := by
    unfold GetArrayFromFile
    rw [groupFloats_of_misaligned bytes h4]
    rfl
  have hkname : (key == "name") = false := by
    cases hq : key == "name" with
    | false => rfl
    | true =>
      exfalso
      have hkey : key = "name" := eq_of_beq hq
      rw [hkey] at hk
      exact absurd hk (by decide)
  have hrp : ResolveProperty [(fname, bytes)] key (.scalar fname) = none := by
    simp [ResolveProperty, hk, List.lookup, hga]
  have hunit : GetUnit [(fname, bytes)]
      (.map [("name", .scalar unm), (key, .scalar fname)]) = none := by
    simp [GetUnit, List.lookup, List.filter, hkname, bne, ResolveTable, hrp]
  have hcw : CreateWorkflow [(fname, bytes)]
      (.map [("units",
        .seq [.map [("name", .scalar unm), (key, .scalar fname)]])]) = none := by
    simp [CreateWorkflow, List.lookup, GetUnits, hunit]
  refine ⟨hga, ?_, ?_⟩
  · simp [Load, hcw, cleaning, finishStatus]
  · simp [Load, hcw, cleaning]

theorem misaligned_link_file_fails_load_witness :
    GetArrayFromFile [1, 2, 3] = none ∧
    (Load ⟨some [("w.bin", [1, 2, 3])],
        some (.map [("units",
          .seq [.map [("name", .scalar "U"), ("link_to_w", .scalar "w.bin")]])]),
        true⟩).status = .kWorkflowFromFileExtractionError ∧
    (Load ⟨some [("w.bin", [1, 2, 3])],
        some (.map [("units",
          .seq [.map [("name", .scalar "U"), ("link_to_w", .scalar "w.bin")]])]),
        true⟩).scratchExists = false :=
  misaligned_link_file_fails_load [1, 2, 3] "link_to_w" "w.bin" "U"
    (by decide) (by decide)

/-- Claim C7: every property table the pipeline produces (both the
workflow-level table and each per-unit table are built by `ResolveTable`)
maps each raw key to exactly one value — one table entry per raw entry, in
order — whose shape is dictated by the key's tag: a link-tagged key yields
a float array and every other key yields a string; `PropertyValue` admits
no other shape. -/
theorem resolveTable_shapes_match_tags (files : ScratchFiles)
    (kvs : List (String × YamlNode)) (t : PropertiesTable)
    (h : ResolveTable files kvs = some t) :
    List.Forall₂ (fun kv p =>
      if hasLinkTag kv.1 then (∃ a n, p.2 = PropertyValue.floatArr a n)
      else (∃ s, p.2 = PropertyValue.str s)) kvs t := by
  induction kvs generalizing t with
  | nil =>
    unfold ResolveTable at h
    cases h
    exact List.Forall₂.nil
  | cons kv rest ih =>
    obtain ⟨k, v⟩ := kv
    unfold ResolveTable at h
    cases hp : ResolveProperty files k v with
    | none => rw [hp] at h; cases h
    | some p =>
      rw [hp] at h
      cases ht : ResolveTable files rest with
      | none => rw [ht] at h; cases h
      | some t2 =>
        rw [ht] at h
        cases h
        exact List.Forall₂.cons (resolveProperty_shape files k v p hp) (ih t2 ht)

theorem resolveTable_shapes_match_tags_witness :
    List.Forall₂ (fun kv p =>
      if hasLinkTag kv.1 then (∃ a n, p.2 = PropertyValue.floatArr a n)
      else (∃ s, p.2 = PropertyValue.str s))
      [("link_to_w", YamlNode.scalar "f"), ("x", YamlNode.scalar "hello")]
      [("w", PropertyValue.floatArr [[0, 0, 0, 0]] 1),
        ("x", PropertyValue.str "hello")] :=
  resolveTable_shapes_match_tags [("f", [0, 0, 0, 0])]
    [("link_to_w", YamlNode.scalar "f"), ("x", YamlNode.scalar "hello")]
    [("w", PropertyValue.floatArr [[0, 0, 0, 0]] 1),
      ("x", PropertyValue.str "hello")]
    (by decide)

/-- Claim C8: a property key triggers link resolution exactly when it
begins with the reserved link tag.  A link-tagged key is resolved by
reading the file named by its scalar value from the scratch directory
through `GetArrayFromFile`, producing a float-array property stored under
the stripped key; every other key stores its scalar value verbatim as a
string property under the key itself. -/
theorem resolveProperty_link_iff (files : ScratchFiles) (key : String)
    (node : YamlNode) (p : String × PropertyValue)
    (h : ResolveProperty files key node = some p) :
    (hasLinkTag key = true →
      ∃ fname bytes arr n, node = .scalar fname ∧
        files.lookup fname = some bytes ∧
        GetArrayFromFile bytes = some (arr, n) ∧
        p = (stripLinkTag key, PropertyValue.floatArr arr n)) ∧
    (hasLinkTag key = false →
      ∃ s, node = .scalar s ∧ p = (key, PropertyValue.str s)) := by
  cases hk : hasLinkTag key with
  | false =>
    refine ⟨fun hkt => absurd hkt (by decide), fun _ => ?_⟩
    cases node with
    | scalar s =>
      simp only [ResolveProperty, hk, Bool.false_eq_true, if_false,
        Option.some.injEq] at h
      exact ⟨s, rfl, h.symm⟩
    | seq elems => simp [ResolveProperty, hk] at h
    | map entries => simp [ResolveProperty, hk] at h
  | true =>
    refine ⟨fun _ => ?_, fun hkf => absurd hkf (by decide)⟩
    cases node with
    | scalar fname =>
      cases hl : files.lookup fname with
      | none => simp [ResolveProperty, hk, hl] at h
      | some bytes =>
        cases hga : GetArrayFromFile bytes with
        | none => simp [ResolveProperty, hk, hl, hga] at h
        | some pr =>
          simp only [ResolveProperty, hk, if_true, hl, hga, Option.map_some',
            Option.some.injEq] at h
          exact ⟨fname, bytes, pr.1, pr.2, rfl, hl, by rw [hga], h.symm⟩
    | seq elems => simp [ResolveProperty, hk] at h
    | map entries => simp [ResolveProperty, hk] at h

theorem resolveProperty_link_iff_witness :
    (hasLinkTag "link_to_w" = true →
      ∃ fname bytes arr n, YamlNode.scalar "f" = .scalar fname ∧
        ([("f", [1, 2, 3, 4])] : ScratchFiles).lookup fname = some bytes ∧
        GetArrayFromFile bytes = some (arr, n) ∧
        ("w", PropertyValue.floatArr [[1, 2, 3, 4]] 1) =
          (stripLinkTag "link_to_w", PropertyValue.floatArr arr n)) ∧
    (hasLinkTag "link_to_w" = false →
      ∃ s, YamlNode.scalar "f" = .scalar s ∧
        ("w", PropertyValue.floatArr [[1, 2, 3, 4]] 1) =
          ("link_to_w", PropertyValue.str s)) :=
  resolveProperty_link_iff [("f", [1, 2, 3, 4])] "link_to_w"
    (YamlNode.scalar "f") ("w", PropertyValue.floatArr [[1, 2, 3, 4]] 1)
    (by decide)

/-- Claim C9: loading an archive whose description has an empty `units`
sequence succeeds: the final status is `kAllGood` (not an error) and the
resulting `WorkflowDescription` has zero units. -/
theorem empty_units_loads_all_good (files : ScratchFiles) :
    (Load ⟨some files, some (.map [("units", .seq [])]), true⟩).status =
      .kAllGood ∧
    ∃ wd, (Load ⟨some files, some (.map [("units", .seq [])]), true⟩).desc =
      some wd ∧ wd.Units = [] := by
  have hcw : CreateWorkflow files (.map [("units", .seq [])]) =
      some ⟨[], []⟩ := by
    simp [CreateWorkflow, List.lookup, GetUnits, List.filter, bne, ResolveTable]
  refine ⟨?_, ⟨[], []⟩, ?_, rfl⟩
  · simp [Load, hcw, cleaning, finishStatus]
  · simp [Load, hcw, cleaning]

/-- Claim C10: `GetWorkflowDescription` does not modify the loader's state —
all four data members are unchanged by the call — and it returns the stored
workflow description, so repeated calls with no intervening `Load` return
equal results. -/
theorem getWorkflowDescription_is_pure (s : WorkflowLoader) :
    (GetWorkflowDescription s).1 = s.workflow_desc_ ∧
    (GetWorkflowDescription s).2.workflow_desc_ = s.workflow_desc_ ∧
    (GetWorkflowDescription s).2.workflow_ = s.workflow_ ∧
    (GetWorkflowDescription s).2.archive_name_ = s.archive_name_ ∧
    (GetWorkflowDescription s).2.file_with_workflow_ = s.file_with_workflow_ ∧
    (GetWorkflowDescription ((GetWorkflowDescription s).2)).1 =
      (GetWorkflowDescription s).1 :=
  ⟨rfl, rfl, rfl, rfl, rfl, rfl⟩

end Veles
